import Mathlib

/-!
Verification development for the `test_analyzer` repository.

The file shallowly embeds the functions the claims speak about:

* `multiset_analyzer.py` (`analyze_geometric_patterns` and its local helpers
  `_tokens`, `canonical_name`, `same_person`, `add_edge`, the directed flow
  graph and the 2- and 3-cycle scan), and
* `interactive_csv_parser_system.py` (`clean_dataframe`, `_find_dataset_end`,
  `process_all_files` with `DatasetManager.add_dataset`).

Modelling conventions:

* Python strings are Lean `String`s; the Unicode-table driven predicates
  (`str.lower`, `str.isalnum`, `str.isspace`, NFKD accent stripping) are
  modelled on the ASCII/Latin-1 fragment, on which they agree with Python.
* Nullable cells / possibly-NaN scalars are `Option`s; `pandas` NaN is `none`.
* Float amounts are idealized as exact rationals `ℚ`; every numeric fact the
  claims need (signs, sums, the 0.9 threshold at the concrete sizes involved)
  is representable exactly.
* `difflib.SequenceMatcher` (used by `same_person`) is embedded faithfully:
  the dynamic-programming longest-match search with its tie-breaking, the
  autojunk popularity rule, the four match-extension loops and the recursive
  matching-block total. Recursions are run with ample fuel; the fuel bounds
  strictly dominate the recursion depth, so the fueled functions compute the
  same values as the Python originals.
-/

namespace TestAnalyzer

/-! ### Python string primitives (ASCII/Latin-1 fragment) -/

/-- Python whitespace class used by bare `str.strip()` and `str.split()`:
tab, LF, VT, FF, CR, the file/group/record/unit separators `\x1c`–`\x1f`,
space, NEL `\x85` and NBSP `\xa0`. -/
def pyIsSpace (c : Char) : Bool :=
  c.toNat = 9 || c.toNat = 10 || c.toNat = 11 || c.toNat = 12 || c.toNat = 13 ||
  (28 ≤ c.toNat && c.toNat ≤ 32) || c.toNat = 133 || c.toNat = 160

/-- Python `str.isalnum`, ASCII fragment: letters and digits. -/
def pyIsAlnum (c : Char) : Bool :=
  (65 ≤ c.toNat && c.toNat ≤ 90) || (97 ≤ c.toNat && c.toNat ≤ 122) ||
  (48 ≤ c.toNat && c.toNat ≤ 57)

/-- Python `str.lower`, ASCII fragment. -/
def pyToLower (c : Char) : Char :=
  if 65 ≤ c.toNat && c.toNat ≤ 90 then Char.ofNat (c.toNat + 32) else c

/-- Drop characters satisfying `p` from both ends of a character list
(the shape of every Python `str.strip` variant). -/
def stripWhile (p : Char → Bool) (l : List Char) : List Char :=
  ((l.dropWhile p).reverse.dropWhile p).reverse

/-- Python `str.strip()` (no argument): strip whitespace from both ends. -/
def pyStrip (s : String) : String := ⟨stripWhile pyIsSpace s.data⟩

/-- Python `str.strip(q)` for a single-character argument `q`. -/
def pyStripChar (q : Char) (s : String) : String :=
  ⟨stripWhile (fun c => c = q) s.data⟩

/-- Worker for Python `str.split()`: cut at whitespace runs, dropping empty
pieces; `acc` holds the current word reversed. -/
def splitWsAux : List Char → List Char → List (List Char)
  | [], acc => if acc.isEmpty then [] else [acc.reverse]
  | c :: cs, acc =>
    if pyIsSpace c then
      if acc.isEmpty then splitWsAux cs [] else acc.reverse :: splitWsAux cs []
    else splitWsAux cs (c :: acc)

/-- Python `str.split()` with no separator argument. -/
def pySplit (s : String) : List String := (splitWsAux s.data []).map String.mk

/-! ### Identity canonicalizer (`multiset_analyzer.analyze_geometric_patterns`
local helpers `_strip_accents`, `_tokens`, `canonical_name`, `same_person`) -/

/-- Source `_strip_accents`: NFKD-normalize and drop combining marks.  On the
ASCII fragment modelled here NFKD is the identity and no combining marks
occur, so the function is the identity. -/
def strip_accents (s : String) : String := s

/-- Source `_tokens`: empty input gives no tokens; otherwise strip accents,
lowercase, replace non-alphanumeric non-space characters by a space, split on
whitespace and keep the tokens of length at least 2. -/
def tokens (name : String) : List String :=
  if name = "" then []
  else
    let low := (strip_accents name).data.map pyToLower
    let mapped := low.map (fun c => if pyIsAlnum c || pyIsSpace c then c else ' ')
    ((splitWsAux mapped []).map String.mk).filter (fun t => 2 ≤ t.length)

/-- Source `canonical_name`: empty key for no tokens, the sole token for one,
otherwise first token, a space, and the last token. -/
def canonical_name (name : String) : String :=
  match tokens name with
  | [] => ""
  | [t] => t
  | t :: ts => t ++ " " ++ ts.getLastD t

/-- Python `set(_tokens(name))`, as a duplicate-free list.  Only set-like
operations (cardinality, membership, subset, sorting) are applied to it. -/
def tokenSet (name : String) : List String := (tokens name).dedup

/-- Python `set.issubset` on the duplicate-free lists. -/
def isSubsetL (xs ys : List String) : Bool := xs.all (fun x => ys.contains x)

/-! ### Sorting (`sorted` on Python strings = ascending code-point order) -/

/-- Code-point lexicographic strict order, as Python compares strings. -/
def charListLt : List Char → List Char → Bool
  | [], [] => false
  | [], _ :: _ => true
  | _ :: _, [] => false
  | c :: cs, d :: ds =>
    if c.toNat < d.toNat then true
    else if d.toNat < c.toNat then false
    else charListLt cs ds

/-- Strict order on strings (Python `<`). -/
def strLtB (s t : String) : Bool := charListLt s.data t.data

/-- Insert into an ascending list. -/
def insertAsc (x : String) : List String → List String
  | [] => [x]
  | y :: ys => if strLtB x y then x :: y :: ys else y :: insertAsc x ys

/-- Ascending sort; on duplicate-free input it yields exactly Python
`sorted`. -/
def sortAsc : List String → List String
  | [] => []
  | x :: xs => insertAsc x (sortAsc xs)

/-- Python `' '.join(sorted(s))`. -/
def sortedJoin (xs : List String) : String := String.intercalate " " (sortAsc xs)

/-! ### difflib.SequenceMatcher (CPython), over character lists -/

/-- Ascending list of the positions of `c` in `b` (the `b2j` entry before
junk removal). -/
def positionsOf (b : List Char) (c : Char) : List Nat :=
  (List.range b.length).filter (fun j => b.getD j ' ' == c)

/-- Autojunk rule of `SequenceMatcher.__chain_b`: when `b` has at least 200
elements, elements occurring more than `len(b) // 100 + 1` times are junked. -/
def popularJunk (b : List Char) : List Char :=
  if b.length < 200 then []
  else b.dedup.filter (fun c => b.length / 100 + 1 < b.count c)

/-- The `isbjunk` test consulted by the extension loops: membership in
`bjunk`, the explicit-junk set, which is empty because the source constructs
`SequenceMatcher(None, ...)` (`isjunk=None`).  The autojunk-popular set only
purges `b2j` below; `isbjunk` does not test it. -/
def isJunk (_b : List Char) (_c : Char) : Bool := false

/-- The `b2j` mapping after junk and autojunk-popular removal. -/
def b2j (b : List Char) (c : Char) : List Nat :=
  if (popularJunk b).contains c then [] else positionsOf b c

/-- Inner loop of `find_longest_match` over one row `i`: for every position
`j` of `a[i]` within `[blo, bhi)`, extend the diagonal run ending at
`(i-1, j-1)` and track the best `(besti, bestj, bestsize)` (strict
improvement only, so ties keep the earliest match). -/
def flmInner (i blo : Nat) :
    List Nat → (Nat → Nat) → (Nat → Nat) → Nat × Nat × Nat →
    ((Nat → Nat) × (Nat × Nat × Nat))
  | [], _, new, best => (new, best)
  | j :: js, old, new, best =>
    let k := (if j = blo then 0 else old (j - 1)) + 1
    let new2 := fun x => if x = j then k else new x
    let best2 := if best.2.2 < k then (i + 1 - k, j + 1 - k, k) else best
    flmInner i blo js old new2 best2

/-- Outer loop of `find_longest_match` over the rows `alo ≤ i < ahi`;
`old` is the previous row's diagonal-run lengths (`j2len`). -/
def flmRows (a b : List Char) (blo bhi : Nat) :
    List Nat → (Nat → Nat) → Nat × Nat × Nat → Nat × Nat × Nat
  | [], _, best => best
  | i :: is, old, best =>
    let js := (b2j b (a.getD i ' ')).filter (fun j => blo ≤ j && j < bhi)
    let r := flmInner i blo js old (fun _ => 0) best
    flmRows a b blo bhi is r.1 r.2

/-- Backward match extension of `find_longest_match`; `jf` selects the
non-junk (`false`) or junk (`true`) phase.  Fuel dominates the number of
possible steps. -/
def extendLo (a b : List Char) (jf : Bool) (alo blo : Nat) :
    Nat → Nat × Nat × Nat → Nat × Nat × Nat
  | 0, st => st
  | fuel + 1, (bi, bj, bs) =>
    if alo < bi && blo < bj && isJunk b (b.getD (bj - 1) ' ') == jf &&
        a.getD (bi - 1) ' ' == b.getD (bj - 1) ' ' then
      extendLo a b jf alo blo fuel (bi - 1, bj - 1, bs + 1)
    else (bi, bj, bs)

/-- Forward match extension of `find_longest_match`; `jf` as in `extendLo`. -/
def extendHi (a b : List Char) (jf : Bool) (ahi bhi : Nat) :
    Nat → Nat × Nat × Nat → Nat × Nat × Nat
  | 0, st => st
  | fuel + 1, (bi, bj, bs) =>
    if bi + bs < ahi && bj + bs < bhi && isJunk b (b.getD (bj + bs) ' ') == jf &&
        a.getD (bi + bs) ' ' == b.getD (bj + bs) ' ' then
      extendHi a b jf ahi bhi fuel (bi, bj, bs + 1)
    else (bi, bj, bs)

/-- CPython `SequenceMatcher.find_longest_match` on `a[alo:ahi]`, `b[blo:bhi]`:
dynamic-programming scan, then the four extension loops (non-junk backward,
non-junk forward, junk backward, junk forward). -/
def find_longest_match (a b : List Char) (alo ahi blo bhi : Nat) : Nat × Nat × Nat :=
  let best0 := flmRows a b blo bhi (List.range' alo (ahi - alo)) (fun _ => 0) (alo, blo, 0)
  let best1 := extendLo a b false alo blo (a.length + 1) best0
  let best2 := extendHi a b false ahi bhi (a.length + b.length + 1) best1
  let best3 := extendLo a b true alo blo (a.length + 1) best2
  extendHi a b true ahi bhi (a.length + b.length + 1) best3

/-- Total size of the matching blocks (`sum(size for block in
get_matching_blocks())`): recurse left and right of the longest match.  The
queue order of the original does not affect the total.  The region measure
`(ahi-alo)+(bhi-blo)` drops by at least one per level, so fuel
`len(a)+len(b)+1` always suffices. -/
def matchesTotalAux (a b : List Char) : Nat → Nat → Nat → Nat → Nat → Nat
  | 0, _, _, _, _ => 0
  | fuel + 1, alo, ahi, blo, bhi =>
    let m := find_longest_match a b alo ahi blo bhi
    if m.2.2 = 0 then 0
    else
      matchesTotalAux a b fuel alo m.1 blo m.2.1 + m.2.2 +
        matchesTotalAux a b fuel (m.1 + m.2.2) ahi (m.2.1 + m.2.2) bhi

/-- Total matched characters between `x` and `y`. -/
def matchesTotal (x y : List Char) : Nat :=
  matchesTotalAux x y (x.length + y.length + 1) 0 x.length 0 y.length

/-- `SequenceMatcher.ratio()`: `2 * M / (len(a) + len(b))`, and 1 on two
empty sequences, as an exact rational (`mkRat n d` is the rational `n / d`). -/
def ratio (x y : String) : ℚ :=
  let T := x.length + y.length
  if T = 0 then 1 else mkRat (2 * matchesTotal x.data y.data) T

/-- Source `same_person`: false on an empty argument; true on equal canonical
keys; true when the token set of smaller cardinality has at least two
elements and one token set contains the other; otherwise compare the
`SequenceMatcher` ratio of the sorted, space-joined token sets with 0.9. -/
def same_person (a b : String) : Bool :=
  if a = "" || b = "" then false
  else if canonical_name a = canonical_name b then true
  else
    let ta := tokenSet a
    let tb := tokenSet b
    let smaller := if ta.length ≤ tb.length then ta else tb
    if decide (2 ≤ smaller.length) && (isSubsetL ta tb || isSubsetL tb ta) then true
    else decide (mkRat 9 10 ≤ ratio (sortedJoin ta) (sortedJoin tb))

/-! ### Flow graph builder (`analyze_geometric_patterns`: `add_edge` and the
row loops).  A transaction row carries the two raw party names (`none` models
a pandas-missing value) and the amount after `pd.to_numeric(..., errors =
coerce)` (`none` models NaN, i.e. a missing or unparseable amount). -/

structure Row where
  sender : Option String
  receiver : Option String
  amount : Option ℚ
deriving DecidableEq

/-- An edge of the `networkx.DiGraph`: its `amounts` list attribute and the
`source` attribute set once at creation.  At most one edge per ordered node
pair exists (as in a `DiGraph`), which `add_edge` maintains. -/
structure FlowEdge where
  src : String
  dst : String
  amounts : List ℚ
  source : String
deriving DecidableEq

/-- The directed graph as its edge list (insertion order). -/
abbrev Graph := List FlowEdge

/-- `G.has_edge(s, r)`. -/
def hasEdge (G : Graph) (s r : String) : Bool :=
  G.any (fun e => e.src == s && e.dst == r)

/-- `G[s][r]['amounts'].append(amt)`. -/
def appendAmount (G : Graph) (s r : String) (amt : ℚ) : Graph :=
  G.map (fun e =>
    if e.src == s && e.dst == r then
      { e with amounts := e.amounts ++ [amt] }
    else e)

/-- Source `add_edge`: skip on a missing name, a blank stripped name, a
`same_person` pair, an empty canonical key or equal canonical keys; otherwise
append the amount to an existing edge or create the edge with a one-element
amounts list and the provenance tag. -/
def add_edge (G : Graph) (row : Row) (source : String) : Graph :=
  match row.sender, row.receiver with
  | some sender_raw, some receiver_raw =>
    let s_raw := pyStrip sender_raw
    let r_raw := pyStrip receiver_raw
    if s_raw = "" || r_raw = "" then G
    else if same_person s_raw r_raw then G
    else
      let s := canonical_name s_raw
      let r := canonical_name r_raw
      if s = "" || r = "" || s = r then G
      else
        let amt := row.amount.getD 0
        if hasEdge G s r then appendAmount G s r amt
        else G ++ [⟨s, r, [amt], source⟩]
  | _, _ => G

/-- The two row loops of `analyze_geometric_patterns`: all Exits rows
(columns I → H) first, then all Inputs rows (Hotel → Golf). -/
def buildGraph (exits inputs : List Row) : Graph :=
  inputs.foldl (fun G row => add_edge G row "Inputs")
    (exits.foldl (fun G row => add_edge G row "Exits") [])

/-- Canonical pair a row contributes an edge to, `none` when `add_edge`
skips the row.  The guards replicate `add_edge` exactly. -/
def rowTarget (row : Row) : Option (String × String) :=
  match row.sender, row.receiver with
  | some sender_raw, some receiver_raw =>
    let s_raw := pyStrip sender_raw
    let r_raw := pyStrip receiver_raw
    if s_raw = "" || r_raw = "" then none
    else if same_person s_raw r_raw then none
    else
      let s := canonical_name s_raw
      let r := canonical_name r_raw
      if s = "" || r = "" || s = r then none
      else some (s, r)
  | _, _ => none

/-! ### Cycle detector (`nx.simple_cycles` filtered to lengths 2 and 3, and
the pattern records built from the cycles).

`nx.simple_cycles` is third-party library code; it is modelled by direct
enumeration of the simple directed cycles of node count 2 and 3 over the edge
list, each cycle listed once, rotated so that its least node (code-point
order) comes first.  The properties proved below are invariant under the
enumeration order and the chosen rotation, which are the only respects in
which the model may differ from the library's traversal. -/

/-- The node list of the graph. -/
def graphNodes (G : Graph) : List String :=
  (G.map (fun e => e.src) ++ G.map (fun e => e.dst)).dedup

/-- Exact rational addition written out so that it evaluates (the library
`Rat.add` behind `+` is deliberately irreducible); `qadd_eq_add` below
identifies it with `+`. -/
def qadd (a b : ℚ) : ℚ := mkRat (a.num * b.den + b.num * a.den) (a.den * b.den)

/-- Python `sum(...)`: left fold of addition starting from 0. -/
def qsum (l : List ℚ) : ℚ := l.foldl qadd 0

/-- Sum of the amounts attribute of the edge `s → r` (`get_edge_data` with a
`{}` default: a missing edge contributes 0). -/
def edgeAmountSum (G : Graph) (s r : String) : ℚ :=
  qsum ((G.filter (fun e => e.src == s && e.dst == r)).map
    (fun e => qsum e.amounts))

/-- All simple directed 2- and 3-cycles of `G`, least node first. -/
def cycles23 (G : Graph) : List (List String) :=
  let ns := graphNodes G
  let two := ns.flatMap (fun u => ns.filterMap (fun v =>
    if strLtB u v && hasEdge G u v && hasEdge G v u then some [u, v] else none))
  let three := ns.flatMap (fun u => ns.flatMap (fun v => ns.filterMap (fun w =>
    if strLtB u v && strLtB u w && v != w &&
        hasEdge G u v && hasEdge G v w && hasEdge G w u then
      some [u, v, w]
    else none)))
  two ++ three

/-- One entry of the `patterns` list (the dict keys `Type`, `Pattern`,
`Nodes`, `Total_Amount`, `Edge_Count`; `Type` is a Lean keyword, hence
`TypeLabel`). -/
structure CyclePattern where
  TypeLabel : String
  Pattern : String
  Nodes : List String
  Total_Amount : ℚ
  Edge_Count : Nat
deriving DecidableEq

/-- Total amount of a cycle: close the walk and sum every edge's accumulated
amounts along it. -/
def cycleTotal (G : Graph) (c : List String) : ℚ :=
  let path := c ++ [c.headD ""]
  qsum ((path.zip path.tail).map (fun p => edgeAmountSum G p.1 p.2))

/-- The pattern record appended for one detected cycle. -/
def mkPattern (G : Graph) (c : List String) : CyclePattern :=
  { TypeLabel := toString c.length ++ "-way"
    Pattern := String.intercalate " → " (c ++ [c.headD ""])
    Nodes := c
    Total_Amount := cycleTotal G c
    Edge_Count := c.length }

/-- Sort key of `sort_values(["Type", "Total_Amount"], ascending=[True,
False])`: length class ascending, then total amount descending. -/
def patBefore (p q : CyclePattern) : Bool :=
  strLtB p.TypeLabel q.TypeLabel ||
    (p.TypeLabel == q.TypeLabel && decide (q.Total_Amount ≤ p.Total_Amount))

/-- Insertion into a sorted pattern list. -/
def insertPat (x : CyclePattern) : List CyclePattern → List CyclePattern
  | [] => [x]
  | y :: ys => if patBefore x y then x :: y :: ys else y :: insertPat x ys

/-- Ranking of the pattern list. -/
def sortPats : List CyclePattern → List CyclePattern
  | [] => []
  | x :: xs => insertPat x (sortPats xs)

/-- Source `analyze_geometric_patterns` from the transaction rows onward,
for a run in which both dataset collections are present (the method's
earlier `return None` when `exits_data` or `inputs_data` is absent precedes
any row processing and concerns the dataset store, not row content): `none`
models the `G.number_of_edges() == 0` early return after filtering;
otherwise the ranked pattern list (possibly empty) that the method turns
into `df_patterns` and returns. -/
def analyze_geometric_patterns (exits inputs : List Row) :
    Option (List CyclePattern) :=
  let G := buildGraph exits inputs
  if G.length = 0 then none
  else some (sortPats ((cycles23 G).map (mkPattern G)))

/-! ### Row cleaner (`InteractiveCSVParser.clean_dataframe`, cell part).

A cell is a nullable string (`dtype=str` reading).  The source also cleans
the header names; the cell table is what the cleaning claims quantify
over. -/

/-- The non-breaking-space literal of the replacement map. -/
def nbsp : String := ⟨[Char.ofNat 160]⟩

/-- One cell through `df.map(lambda x: x.strip().strip(quote).strip(squote)
if isinstance(x, str) else x)` followed by `df.replace({"": None, "nan":
None, "NaN": None, "None": None, "\xa0": None})`. -/
def cleanCell : Option String → Option String
  | none => none
  | some s =>
    let t := pyStripChar (Char.ofNat 39) (pyStripChar (Char.ofNat 34) (pyStrip s))
    if t = "" || t = "nan" || t = "NaN" || t = "None" || t = nbsp then none
    else some t

/-- Source `clean_dataframe` on the cell table. -/
def clean_dataframe (rows : List (List (Option String))) :
    List (List (Option String)) :=
  rows.map (fun r => r.map cleanCell)

/-! ### Section end boundary (`InteractiveCSVParser._find_dataset_end`) -/

/-- A parsed table: column names and the rows of nullable cells (after
`dtype=str` reading and `clean_dataframe`). -/
structure Table where
  cols : List String
  rows : List (List (Option String))
deriving DecidableEq

/-- Needle is an initial segment of hay. -/
def startsWithCL : List Char → List Char → Bool
  | [], _ => true
  | _ :: _, [] => false
  | c :: cs, d :: ds => c == d && startsWithCL cs ds

/-- Python `needle in hay` substring test. -/
def containsCL (needle : List Char) : List Char → Bool
  | [] => needle.isEmpty
  | d :: ds => startsWithCL needle (d :: ds) || containsCL needle ds

/-- Python `str.lower` over a string, ASCII fragment. -/
def lowerStr (s : String) : String := ⟨s.data.map pyToLower⟩

/-- Pandas `astype(str)` on a nullable cell: `None` prints as `"None"`. -/
def cellStr : Option String → String
  | none => "None"
  | some s => s

/-- The `Totale` marker test on one cell of the date column:
`astype(str).str.strip().str.lower() == "totale"`. -/
def isTotaleCell (marker : String) (c : Option String) : Bool :=
  lowerStr (pyStrip (cellStr c)) == marker

/-- Blank-prefix test of the fallback scan: the first three cells are all
missing, or all stringify and strip to the empty string. -/
def blankFirst3 (r : List (Option String)) : Bool :=
  (r.take 3).all (fun c => c.isNone) ||
    (r.take 3).all (fun c => pyStrip (cellStr c) == "")

/-- Source `_find_dataset_end`: look for the first column whose lowered name
contains `"date"`; in it, the first row equal (stripped, lowered) to
`"totale"` gives end = index − 2.  Else, when at least three columns exist,
the first row with blank first three cells gives end = index − 1.  Else the
last row.  Results can be negative, hence `Int`. -/
def find_dataset_end (t : Table) : Int :=
  let markerIdx : Option Nat :=
    match t.cols.findIdx? (fun c => containsCL "date".data (lowerStr c).data) with
    | none => none
    | some ci => t.rows.findIdx? (fun r => isTotaleCell "totale" (r.getD ci none))
  match markerIdx with
  | some i => (i : Int) - 2
  | none =>
    let blankIdx : Option Nat :=
      if 3 ≤ t.cols.length then t.rows.findIdx? blankFirst3 else none
    match blankIdx with
    | some i => (i : Int) - 1
    | none => (t.rows.length : Int) - 1

/-- Stated from the specification sentence of C7 (its literal reading, for
comparison with the source): the ordered fallback chain with a given marker
token, phrased over indexed searches.  `spec_find_dataset_end "total"` is
the claim as written; the source uses the token `"totale"`. -/
def spec_dateColumn (t : Table) : Option Nat :=
  ((t.cols.zip (List.range t.cols.length)).find?
    (fun p => containsCL "date".data (lowerStr p.1).data)).map (fun p => p.2)

/-- First row (by index) whose cell in column `ci` is the marker token. -/
def spec_markerRow (marker : String) (t : Table) (ci : Nat) : Option Nat :=
  ((t.rows.zip (List.range t.rows.length)).find?
    (fun p => isTotaleCell marker (p.1.getD ci none))).map (fun p => p.2)

/-- First row (by index) whose first three columns are blank, provided the
table is at least three columns wide. -/
def spec_blankRow (t : Table) : Option Nat :=
  if 3 ≤ t.cols.length then
    ((t.rows.zip (List.range t.rows.length)).find?
      (fun p => blankFirst3 p.1)).map (fun p => p.2)
  else none

/-- The specification's fallback chain, parametrized by the marker token. -/
def spec_find_dataset_end (marker : String) (t : Table) : Int :=
  match (spec_dateColumn t).bind (spec_markerRow marker t) with
  | some i => (i : Int) - 2
  | none =>
    match spec_blankRow t with
    | some i => (i : Int) - 1
    | none => (t.rows.length : Int) - 1

/-! ### Per-file pipeline (`process_all_files` with the three `parse_*`
calls and `DatasetManager.add_dataset`).

Each section parse (`parse_exits_dataset`, `parse_inputs_dataset`,
`parse_waves_dataset`) either raises, or stores its named dataset in the
manager via `add_dataset` and returns.  The model abstracts one section
parse as its outcome: `some (name, table)` for success (stored immediately),
`none` for a raised exception.  A file is its ordered list of section
outcomes; the store is the ordered list of datasets added. -/

abbrev SectionOutcome := Option (String × Table)

abbrev Store := List (String × Table)

/-- One file inside the `try` of `process_all_files`: the sections run in
order, each successful parse storing its dataset at once; the first raising
section aborts the rest of the file (the exception is caught by the per-file
handler, which keeps whatever was already stored and moves on). -/
def processFile (store : Store) : List SectionOutcome → Store
  | [] => store
  | some d :: rest => processFile (store ++ [d]) rest
  | none :: _ => store

/-- Source `process_all_files`: the files strictly in order, each through
`processFile`. -/
def process_all_files (files : List (List SectionOutcome)) : Store :=
  files.foldl processFile []

/-! ### Specification-side definitions used to state the claims -/

/-- Length of the shortest token of a token set (0 for the empty set). -/
def minTokenLen : List String → Nat
  | [] => 0
  | t :: ts => (ts.map String.length).foldl min t.length

/-- The token set of smaller cardinality, ties to the first (Python
`min(ta, tb, key=len)`). -/
def smallerTokenSet (a b : String) : List String :=
  if (tokenSet a).length ≤ (tokenSet b).length then tokenSet a else tokenSet b

/-- Stated from the specification sentence of C1 (its literal reading, for
comparison with the source): both token sets are non-empty, one is a subset
of the other, and the smaller set's shortest token has length at least 2. -/
def spec_subset_tier (a b : String) : Bool :=
  let ta := tokenSet a
  let tb := tokenSet b
  !ta.isEmpty && !tb.isEmpty && (isSubsetL ta tb || isSubsetL tb ta) &&
    decide (2 ≤ minTokenLen (smallerTokenSet a b))

/-- A cell free of double-quote and apostrophe characters (the hypothesis of
the corrected idempotence statement for `clean_dataframe`). -/
def cellQuoteFree : Option String → Bool
  | none => true
  | some s => !(s.data.contains (Char.ofNat 34)) && !(s.data.contains (Char.ofNat 39))

/-! ## Theorems settling the claims -/

/-- Claim C1 (counterexample): at the raw names `"jean"` and
`"jean dubois"`, the canonical keys differ and the claim's subset condition
holds — the token sets are non-empty, one contains the other, and the
smaller set's shortest token has length 4 ≥ 2 — yet `same_person` returns
false, because the source instead requires the smaller token **set** to have
at least two **elements**. -/
theorem C1_counterexample :
    spec_subset_tier "jean" "jean dubois" = true ∧
    canonical_name "jean" ≠ canonical_name "jean dubois" ∧
    same_person "jean" "jean dubois" = false :=
  ⟨by decide, by decide, by decide⟩

/-- Claim C2 (counterexample): the two scenario names do not receive an
identical canonical key: canonicalization keeps the first and last token in
raw order, giving `"jean dubois"` and `"dubois pierre"`. -/
theorem C2_counterexample :
    canonical_name "Jean-Pierre Dubois" = "jean dubois" ∧
    canonical_name "Dubois Jean Pierre" = "dubois pierre" ∧
    canonical_name "Jean-Pierre Dubois" ≠ canonical_name "Dubois Jean Pierre" :=
  ⟨rfl, rfl, by decide⟩

/-- Claim C2 (amended): the canonical keys of `"Jean-Pierre Dubois"` and
`"Dubois Jean Pierre"` differ, but `same_person` still returns true on them
(through the token-subset tier: both names have the same token set). -/
theorem C2_canonical_differ_same_person_true :
    canonical_name "Jean-Pierre Dubois" ≠ canonical_name "Dubois Jean Pierre" ∧
    same_person "Jean-Pierre Dubois" "Dubois Jean Pierre" = true :=
  ⟨by decide, by decide⟩

set_option maxRecDepth 40000 in
/-- Claim C10 (counterexample): `same_person` is not symmetric.  At these
two names everything up to the ratio tier is symmetric, but the
`SequenceMatcher` total is 14 of 31 in one direction (ratio 28/31 ≥ 0.9) and
13 in the other (26/31 < 0.9). -/
theorem C10_counterexample :
    same_person "aa ab zzzzzzzzz" "ba aab zzzzzzzzz" = true ∧
    same_person "ba aab zzzzzzzzz" "aa ab zzzzzzzzz" = false :=
  ⟨by decide, by decide⟩

/-- Claim C5 (counterexample): when every row is filtered out (here a
self-transfer pair), the detector returns the `None` sentinel, not an
explicitly empty cycle list. -/
theorem C5_counterexample :
    analyze_geometric_patterns
        [⟨some "John Smith", some "John  Smith", some 3⟩]
        [⟨some "John Smith", some "John  Smith", some 3⟩] = none ∧
    analyze_geometric_patterns
        [⟨some "John Smith", some "John  Smith", some 3⟩]
        [⟨some "John Smith", some "John  Smith", some 3⟩] ≠ some [] :=
  ⟨rfl, by decide⟩

/-- Claim C6 (counterexample): two rows map to the same canonical pair, one
from the Exits loop and one from the Inputs loop.  The amounts list grows to
`[5, 7]`, but the provenance attribute keeps only the creating row's tag
`"Exits"`: nothing is appended for the second row. -/
theorem C6_counterexample :
    buildGraph [⟨some "Alice Aard", some "Bob Benn", some 5⟩]
        [⟨some "Alice Aard", some "Bob Benn", some 7⟩] =
      [⟨"alice aard", "bob benn", [5, 7], "Exits"⟩] ∧
    (buildGraph [⟨some "Alice Aard", some "Bob Benn", some 5⟩]
        [⟨some "Alice Aard", some "Bob Benn", some 7⟩]).map FlowEdge.source =
      ["Exits"] :=
  ⟨by decide, by decide⟩

/-- Claim C3 (counterexample): `same_person` holds on the raw pair
`("Jean-Pierre Dubois", "Dubois Jean Pierre")` — a pair that even occurs as
a row and is duly skipped — yet the graph contains an edge between exactly
the canonical forms of that pair, contributed by the distinct raw pair
`("jean dubois", "dubois pierre")`, on which `same_person` fails. -/
theorem C3_counterexample :
    same_person "Jean-Pierre Dubois" "Dubois Jean Pierre" = true ∧
    hasEdge
      (buildGraph
        [⟨some "Jean-Pierre Dubois", some "Dubois Jean Pierre", some 9⟩,
         ⟨some "jean dubois", some "dubois pierre", some 5⟩] [])
      (canonical_name "Jean-Pierre Dubois")
      (canonical_name "Dubois Jean Pierre") = true :=
  ⟨by decide, by decide⟩

/-- Claim C7 (counterexample): the marker token of the source is the literal
`"totale"`, not `"total"`.  On a table whose date column holds a `"Total"`
cell, the claim's chain stops at that marker (end = 1 − 2 = −1) while the
source falls through both fallbacks and returns the last row index 2. -/
theorem C7_counterexample :
    find_dataset_end
        ⟨["Date", "B", "C"],
         [[some "01", some "x", some "y"],
          [some "Total", some "x", some "y"],
          [some "02", some "x", some "y"]]⟩ = 2 ∧
    spec_find_dataset_end "total"
        ⟨["Date", "B", "C"],
         [[some "01", some "x", some "y"],
          [some "Total", some "x", some "y"],
          [some "02", some "x", some "y"]]⟩ = -1 :=
  ⟨rfl, rfl⟩

/-- Claim C8 (counterexample): one file whose first section parses, second
raises and third would parse.  The stored first section is kept (not
discarded), and the third section is never extracted (the failure aborts the
rest of the file). -/
theorem C8_counterexample :
    process_all_files
        [[some ("Exits1", ⟨[], []⟩), none, some ("Waves1", ⟨[], []⟩)]] =
      [("Exits1", ⟨[], []⟩)] ∧
    ("Waves1", (⟨[], []⟩ : Table)) ∉
      process_all_files
        [[some ("Exits1", ⟨[], []⟩), none, some ("Waves1", ⟨[], []⟩)]] :=
  ⟨rfl, by decide⟩

/-- Claim C9 (counterexample): cleaning is not idempotent.  The cell
`'" nan "'` cleans once to `' nan '` (the quote strip exposes whitespace the
earlier whitespace strip can no longer remove), and cleaning again strips
that whitespace and coerces the now-literal `"nan"` to null. -/
theorem C9_counterexample :
    clean_dataframe [[some "\" nan \""]] = [[some " nan "]] ∧
    clean_dataframe (clean_dataframe [[some "\" nan \""]]) = [[none]] :=
  ⟨rfl, rfl⟩

/-- Claim C8 (amended): a file whose sections parse successfully up to the
first raising section stores exactly those earlier sections — they are kept
in the Dataset Store, not discarded — the remaining sections of that file
are skipped, and processing continues with the following files from that
store. -/
theorem C8_partial_results_kept (pre : Store) (rest : List SectionOutcome)
    (fs : List (List SectionOutcome)) :
    process_all_files ((pre.map some ++ none :: rest) :: fs) =
      fs.foldl processFile pre := by
  have h : ∀ (store : Store) (p : Store),
      processFile store (p.map some ++ none :: rest) = store ++ p := by
    intro store p
    induction p generalizing store with
    | nil => simp [processFile]
    | cons d ds ih =>
      show processFile (store ++ [d]) (ds.map some ++ none :: rest) =
        store ++ d :: ds
      rw [ih, List.append_assoc]
      rfl
  simp [process_all_files, h]

/-- Helper: `add_edge` preserves the edge well-formedness invariant
(distinct, non-empty canonical endpoints). -/
theorem add_edge_edges_wf (G : Graph) (row : Row) (src : String)
    (h : ∀ e ∈ G, e.src ≠ e.dst ∧ e.src ≠ "" ∧ e.dst ≠ "") :
    ∀ e ∈ add_edge G row src, e.src ≠ e.dst ∧ e.src ≠ "" ∧ e.dst ≠ "" := by
  obtain ⟨sj, rj, am⟩ := row
  cases sj with
  | none => simpa [add_edge] using h
  | some s0 =>
    cases rj with
    | none => simpa [add_edge] using h
    | some r0 =>
      simp only [add_edge]
      split
      · exact h
      · split
        · exact h
        · split
          · exact h
          · rename_i hng
            split
            · intro e he
              simp only [appendAmount, List.mem_map] at he
              obtain ⟨e0, he0, rfl⟩ := he
              split
              · exact h e0 he0
              · exact h e0 he0
            · intro e he
              rw [List.mem_append] at he
              rcases he with he | he
              · exact h e he
              · simp only [List.mem_singleton] at he
                subst he
                simp only [decide_eq_true_eq, Bool.or_eq_true, not_or] at hng
                exact ⟨hng.2, hng.1.1, hng.1.2⟩

/-- Helper: the invariant holds after folding `add_edge` over any row list. -/
theorem foldl_add_edge_wf (rows : List Row) (src : String) (G : Graph)
    (h : ∀ e ∈ G, e.src ≠ e.dst ∧ e.src ≠ "" ∧ e.dst ≠ "") :
    ∀ e ∈ rows.foldl (fun g row => add_edge g row src) G,
      e.src ≠ e.dst ∧ e.src ≠ "" ∧ e.dst ≠ "" := by
  induction rows generalizing G with
  | nil => exact h
  | cons r rs ih => exact ih _ (add_edge_edges_wf _ _ _ h)

/-- Helper: every edge of the built flow graph has distinct, non-empty
canonical endpoints. -/
theorem buildGraph_edges_wf (exits inputs : List Row) :
    ∀ e ∈ buildGraph exits inputs,
      e.src ≠ e.dst ∧ e.src ≠ "" ∧ e.dst ≠ "" := by
  unfold buildGraph
  exact foldl_add_edge_wf _ _ _ (foldl_add_edge_wf _ _ [] (by simp))

/-- Claim C3 (amended): the per-row skip does hold — a row with a missing
sender or receiver, a blank stripped raw name, or raw names satisfying
`same_person` is dropped before any edge is added — and every edge of the
built graph has distinct, non-empty canonical endpoints.  (As
`C3_counterexample` shows, this does not extend to the claimed global
invariant over every raw-name pair.) -/
theorem C3_row_skip_and_edge_invariant :
    (∀ (G : Graph) (row : Row) (src : String),
        row.sender = none → add_edge G row src = G) ∧
    (∀ (G : Graph) (row : Row) (src : String),
        row.receiver = none → add_edge G row src = G) ∧
    (∀ (G : Graph) (row : Row) (src s0 r0 : String),
        row.sender = some s0 → row.receiver = some r0 →
        (pyStrip s0 = "" ∨ pyStrip r0 = "" ∨
          same_person (pyStrip s0) (pyStrip r0) = true) →
        add_edge G row src = G) ∧
    (∀ (exits inputs : List Row) (e : FlowEdge),
        e ∈ buildGraph exits inputs →
        e.src ≠ e.dst ∧ e.src ≠ "" ∧ e.dst ≠ "") := by
  refine ⟨?_, ?_, ?_, ?_⟩
  · intro G row src hs
    obtain ⟨sj, rj, am⟩ := row
    cases hs
    cases rj <;> rfl
  · intro G row src hr
    obtain ⟨sj, rj, am⟩ := row
    cases hr
    cases sj <;> rfl
  · intro G row src s0 r0 hs hr hcond
    obtain ⟨sj, rj, am⟩ := row
    cases hs
    cases hr
    rcases hcond with h | h | h
    · simp [add_edge, h]
    · simp [add_edge, h]
    · simp [add_edge, h]
  · intro exits inputs e he
    exact buildGraph_edges_wf exits inputs e he

/-- Witness for `C3_row_skip_and_edge_invariant` at concrete inputs: a
missing sender, a missing receiver, a blank sender, a `same_person` pair —
each skipped — and the endpoint invariant on an actually produced edge. -/
theorem C3_witness :
    add_edge [] ⟨none, some "Bob Ray", some 2⟩ "Exits" = [] ∧
    add_edge [] ⟨some "Ann Lee", none, some 2⟩ "Exits" = [] ∧
    add_edge [] ⟨some "   ", some "Bob Ray", some 2⟩ "Exits" = [] ∧
    add_edge [] ⟨some "John Smith", some "John Smith", some 3⟩ "Exits" = [] ∧
    (("jean dubois" : String) ≠ "dubois pierre" ∧
      ("jean dubois" : String) ≠ "" ∧ ("dubois pierre" : String) ≠ "") :=
  ⟨C3_row_skip_and_edge_invariant.1 [] _ "Exits" rfl,
   C3_row_skip_and_edge_invariant.2.1 [] _ "Exits" rfl,
   C3_row_skip_and_edge_invariant.2.2.1 [] _ "Exits" "   " "Bob Ray"
      rfl rfl (Or.inl (by decide)),
   C3_row_skip_and_edge_invariant.2.2.1 [] _ "Exits" "John Smith" "John Smith"
      rfl rfl (Or.inr (Or.inr (by decide))),
   C3_row_skip_and_edge_invariant.2.2.2
      [⟨some "jean dubois", some "dubois pierre", some 5⟩] []
      ⟨"jean dubois", "dubois pierre", [5], "Exits"⟩ (by decide)⟩

/-- Claim C5 (amended): when no qualifying edge survives filtering, the
detector returns the `None` sentinel — without raising, since the embedded
function is total — and not an explicitly empty cycle list (see
`C5_counterexample`). -/
theorem C5_empty_graph_none (exits inputs : List Row)
    (h : buildGraph exits inputs = []) :
    analyze_geometric_patterns exits inputs = none := by
  unfold analyze_geometric_patterns
  rw [h]
  simp

/-- Witness for `C5_empty_graph_none`: two self-transfer rows filter to an
empty graph and the detector yields `none`. -/
theorem C5_witness :
    analyze_geometric_patterns
        [⟨some "John Smith", some "John  Smith", some 3⟩]
        [⟨some "John Smith", some "John  Smith", some 3⟩] = none :=
  C5_empty_graph_none _ _ (by decide)

/-- Helper: on a row that `rowTarget` maps to `(s, r)`, `add_edge` reaches
its accumulate-or-create step for exactly that pair. -/
theorem add_edge_of_target (G : Graph) (row : Row) (src s r : String)
    (h : rowTarget row = some (s, r)) :
    add_edge G row src =
      if hasEdge G s r then appendAmount G s r (row.amount.getD 0)
      else G ++ [⟨s, r, [row.amount.getD 0], src⟩] := by
  obtain ⟨sj, rj, am⟩ := row
  cases sj with
  | none => simp [rowTarget] at h
  | some s0 =>
    cases rj with
    | none => simp [rowTarget] at h
    | some r0 =>
      simp only [rowTarget] at h
      simp only [add_edge]
      split at h
      · exact absurd h (by simp)
      · split at h
        · exact absurd h (by simp)
        · split at h
          · exact absurd h (by simp)
          · rename_i h1 h2 h3
            rw [if_neg h1, if_neg h2, if_neg h3]
            obtain ⟨hs, hr⟩ : canonical_name (pyStrip s0) = s ∧
                canonical_name (pyStrip r0) = r := by
              simpa using h
            rw [hs, hr]

/-- Helper: folding qualifying rows of one canonical pair over a
one-edge graph for that pair appends one amount per row and leaves the
provenance tag untouched. -/
theorem foldl_accumulate (s r src tag : String) (rows : List Row)
    (h : ∀ rw ∈ rows, rowTarget rw = some (s, r)) (amts : List ℚ) :
    rows.foldl (fun g rw => add_edge g rw src) [⟨s, r, amts, tag⟩] =
      [⟨s, r, amts ++ rows.map (fun rw => rw.amount.getD 0), tag⟩] := by
  induction rows generalizing amts with
  | nil => simp
  | cons rw rws ih =>
    rw [List.foldl_cons, add_edge_of_target _ _ _ _ _ (h rw (by simp))]
    have hE : hasEdge [⟨s, r, amts, tag⟩] s r = true := by simp [hasEdge]
    rw [if_pos hE]
    have hA : appendAmount [⟨s, r, amts, tag⟩] s r (rw.amount.getD 0) =
        [⟨s, r, amts ++ [rw.amount.getD 0], tag⟩] := by
      simp [appendAmount]
    rw [hA, ih (fun x hx => h x (by simp [hx]))]
    simp

/-- Claim C6 (amended): a non-empty sequence of qualifying Exits rows all
mapping to the same canonical pair produces exactly one edge whose amounts
list has one entry per row, in row order, and whose provenance tag is the
creating (first) row's tag only — later rows do not append provenance. -/
theorem C6_edge_accumulation (s r : String) (row0 : Row) (rest : List Row)
    (h : ∀ rw ∈ row0 :: rest, rowTarget rw = some (s, r)) :
    buildGraph (row0 :: rest) [] =
      [⟨s, r, (row0 :: rest).map (fun rw => rw.amount.getD 0), "Exits"⟩] := by
  unfold buildGraph
  rw [List.foldl_nil, List.foldl_cons,
    add_edge_of_target [] _ "Exits" s r (h row0 (by simp))]
  have hE : hasEdge [] s r = false := rfl
  rw [if_neg (by simp [hE]), List.nil_append,
    foldl_accumulate s r "Exits" "Exits" rest (fun x hx => h x (by simp [hx]))]
  simp

/-- Witness for `C6_edge_accumulation`: two Exits rows for the same pair
accumulate amounts `[5, 7]` on a single edge tagged by the first row. -/
theorem C6_witness :
    buildGraph
        [⟨some "Alice Aard", some "Bob Benn", some 5⟩,
         ⟨some "Alice Aard", some "Bob Benn", some 7⟩] [] =
      [⟨"alice aard", "bob benn", [5, 7], "Exits"⟩] :=
  C6_edge_accumulation "alice aard" "bob benn" _ _ (by decide)

/-- Helper: the strict string order is irreflexive. -/
theorem charListLt_irrefl (l : List Char) : charListLt l l = false := by
  induction l with
  | nil => rfl
  | cons c cs ih => simp [charListLt, ih]

/-- Helper: strictly ordered strings are distinct. -/
theorem strLtB_ne (s t : String) (h : strLtB s t = true) : s ≠ t := by
  intro he
  subst he
  rw [strLtB, charListLt_irrefl] at h
  exact Bool.noConfusion h

/-- Helper: every enumerated cycle has node count 2 or 3 and pairwise
distinct nodes. -/
theorem mem_cycles23 (G : Graph) (c : List String) (hc : c ∈ cycles23 G) :
    (2 ≤ c.length ∧ c.length ≤ 3) ∧ c.Nodup := by
  simp only [cycles23, List.mem_append, List.mem_flatMap, List.mem_filterMap] at hc
  rcases hc with ⟨u, _, v, _, h⟩ | ⟨u, _, v, _, w, _, h⟩
  · split at h
    · rename_i hcond
      cases h
      simp only [Bool.and_eq_true] at hcond
      have huv := strLtB_ne _ _ hcond.1.1
      refine ⟨by simp, by simp [huv]⟩
    · exact Option.noConfusion h
  · split at h
    · rename_i hcond
      cases h
      simp only [Bool.and_eq_true, bne_iff_ne, ne_eq] at hcond
      have huv := strLtB_ne _ _ hcond.1.1.1.1.1
      have huw := strLtB_ne _ _ hcond.1.1.1.1.2
      have hvw : v ≠ w := hcond.1.1.1.2
      refine ⟨by simp, by simp [huv, huw, hvw]⟩
    · exact Option.noConfusion h

/-- Helper: `add_edge` preserves non-negativity of all stored amounts when
the row's amount is non-negative. -/
theorem add_edge_amounts_nonneg (G : Graph) (row : Row) (src : String)
    (hG : ∀ e ∈ G, ∀ q ∈ e.amounts, 0 ≤ q) (hrow : 0 ≤ row.amount.getD 0) :
    ∀ e ∈ add_edge G row src, ∀ q ∈ e.amounts, 0 ≤ q := by
  obtain ⟨sj, rj, am⟩ := row
  cases sj with
  | none => simpa [add_edge] using hG
  | some s0 =>
    cases rj with
    | none => simpa [add_edge] using hG
    | some r0 =>
      simp only [add_edge]
      split
      · exact hG
      · split
        · exact hG
        · split
          · exact hG
          · split
            · intro e he
              simp only [appendAmount, List.mem_map] at he
              obtain ⟨e0, he0, rfl⟩ := he
              split
              · intro q hq
                simp only [List.mem_append, List.mem_singleton] at hq
                rcases hq with hq | hq
                · exact hG e0 he0 q hq
                · subst hq; exact hrow
              · exact hG e0 he0
            · intro e he
              rw [List.mem_append] at he
              rcases he with he | he
              · exact hG e he
              · simp only [List.mem_singleton] at he
                subst he
                intro q hq
                simp only [List.mem_singleton] at hq
                subst hq
                exact hrow

/-- Helper: the non-negativity invariant survives folding `add_edge`. -/
theorem foldl_add_edge_amounts_nonneg (rows : List Row) (src : String)
    (G : Graph) (hG : ∀ e ∈ G, ∀ q ∈ e.amounts, 0 ≤ q)
    (hrows : ∀ rw ∈ rows, 0 ≤ rw.amount.getD 0) :
    ∀ e ∈ rows.foldl (fun g rw => add_edge g rw src) G,
      ∀ q ∈ e.amounts, 0 ≤ q := by
  induction rows generalizing G with
  | nil => exact hG
  | cons rw rws ih =>
    exact ih _ (add_edge_amounts_nonneg _ _ _ hG (hrows rw (by simp)))
      (fun x hx => hrows x (by simp [hx]))

/-- Helper: all amounts stored in the built graph are non-negative under
non-negative row amounts. -/
theorem buildGraph_amounts_nonneg (exits inputs : List Row)
    (hex : ∀ rw ∈ exits, 0 ≤ rw.amount.getD 0)
    (hin : ∀ rw ∈ inputs, 0 ≤ rw.amount.getD 0) :
    ∀ e ∈ buildGraph exits inputs, ∀ q ∈ e.amounts, 0 ≤ q := by
  unfold buildGraph
  exact foldl_add_edge_amounts_nonneg _ _ _
    (foldl_add_edge_amounts_nonneg _ _ [] (by simp) hex) hin

/-- Helper: the executable addition is rational addition. -/
theorem qadd_eq_add (a b : ℚ) : qadd a b = a + b := by
  have ha : ((a.den : ℚ)) ≠ 0 := Nat.cast_ne_zero.mpr a.den_nz
  have hb : ((b.den : ℚ)) ≠ 0 := Nat.cast_ne_zero.mpr b.den_nz
  rw [qadd, Rat.mkRat_eq_div]
  conv_rhs => rw [← Rat.num_div_den a, ← Rat.num_div_den b]
  field_simp

/-- Helper: a fold of the executable addition over non-negative summands
from a non-negative start is non-negative. -/
theorem qsum_nonneg (l : List ℚ) (h : ∀ q ∈ l, 0 ≤ q) : 0 ≤ qsum l := by
  unfold qsum
  have aux : ∀ (l : List ℚ) (acc : ℚ), (∀ q ∈ l, 0 ≤ q) → 0 ≤ acc →
      0 ≤ l.foldl qadd acc := by
    intro l
    induction l with
    | nil => intro acc _ hacc; exact hacc
    | cons x xs ih =>
      intro acc hl hacc
      rw [List.foldl_cons]
      exact ih _ (fun q hq => hl q (by simp [hq]))
        (by rw [qadd_eq_add]; exact add_nonneg hacc (hl x (by simp)))
  exact aux l 0 h le_rfl

/-- Helper: the amounts total of any ordered pair is non-negative over a
non-negative graph (a missing edge contributes zero). -/
theorem edgeAmountSum_nonneg (G : Graph)
    (h : ∀ e ∈ G, ∀ q ∈ e.amounts, 0 ≤ q) (s r : String) :
    0 ≤ edgeAmountSum G s r := by
  unfold edgeAmountSum
  apply qsum_nonneg
  intro x hx
  simp only [List.mem_map] at hx
  obtain ⟨e, he, rfl⟩ := hx
  exact qsum_nonneg _ (fun q hq => h e (List.mem_of_mem_filter he) q hq)

/-- Helper: a cycle's total amount is non-negative over a non-negative
graph. -/
theorem cycleTotal_nonneg (G : Graph)
    (h : ∀ e ∈ G, ∀ q ∈ e.amounts, 0 ≤ q) (c : List String) :
    0 ≤ cycleTotal G c := by
  unfold cycleTotal
  apply qsum_nonneg
  intro x hx
  simp only [List.mem_map] at hx
  obtain ⟨p, _, rfl⟩ := hx
  exact edgeAmountSum_nonneg G h p.1 p.2

/-- Helper: insertion keeps exactly the members. -/
theorem mem_insertPat (x y : CyclePattern) (l : List CyclePattern) :
    y ∈ insertPat x l ↔ y = x ∨ y ∈ l := by
  induction l with
  | nil => simp [insertPat]
  | cons z zs ih =>
    simp only [insertPat]
    split
    · simp [List.mem_cons]
    · simp only [List.mem_cons, ih]
      tauto

/-- Helper: ranking keeps exactly the members. -/
theorem mem_sortPats (y : CyclePattern) (l : List CyclePattern) :
    y ∈ sortPats l ↔ y ∈ l := by
  induction l with
  | nil => simp [sortPats]
  | cons x xs ih =>
    simp only [sortPats, mem_insertPat, ih, List.mem_cons]

/-- Claim C4 (confirmed): every emitted pattern has between 2 and 3 nodes
and pairwise distinct nodes, unconditionally; and whenever every input
amount is non-negative (missing amounts enter as 0), its total amount is
non-negative. -/
theorem C4_cycle_properties (exits inputs : List Row) (p : CyclePattern)
    (hp : p ∈ (analyze_geometric_patterns exits inputs).getD []) :
    (2 ≤ p.Nodes.length ∧ p.Nodes.length ≤ 3) ∧ p.Nodes.Nodup ∧
      ((∀ rw ∈ exits, 0 ≤ rw.amount.getD 0) →
        (∀ rw ∈ inputs, 0 ≤ rw.amount.getD 0) → 0 ≤ p.Total_Amount) := by
  simp only [analyze_geometric_patterns] at hp
  split at hp
  · simp at hp
  · simp only [Option.getD_some, mem_sortPats, List.mem_map] at hp
    obtain ⟨c, hc, rfl⟩ := hp
    have hshape := mem_cycles23 _ _ hc
    refine ⟨hshape.1, hshape.2, fun hex hin => ?_⟩
    exact cycleTotal_nonneg _ (buildGraph_amounts_nonneg exits inputs hex hin) c

set_option maxRecDepth 20000 in
/-- Witness for `C4_cycle_properties`: the 2-cycle produced by an Exits row
A→B of 100 and an Inputs row B→A of 50. -/
theorem C4_witness :
    (2 ≤ (CyclePattern.mk "2-way" "al aa → bo bb → al aa"
        ["al aa", "bo bb"] 150 2).Nodes.length ∧
      (CyclePattern.mk "2-way" "al aa → bo bb → al aa"
        ["al aa", "bo bb"] 150 2).Nodes.length ≤ 3) ∧
    (CyclePattern.mk "2-way" "al aa → bo bb → al aa"
        ["al aa", "bo bb"] 150 2).Nodes.Nodup ∧
    (0 : ℚ) ≤ (CyclePattern.mk "2-way" "al aa → bo bb → al aa"
        ["al aa", "bo bb"] 150 2).Total_Amount := by
  have h := C4_cycle_properties
    [⟨some "Al Aa", some "Bo Bb", some 100⟩]
    [⟨some "Bo Bb", some "Al Aa", some 50⟩]
    (CyclePattern.mk "2-way" "al aa → bo bb → al aa" ["al aa", "bo bb"] 150 2)
    (by decide)
  exact ⟨h.1, h.2.1, h.2.2 (by decide) (by decide)⟩

/-- Helper: dropping from the front does nothing when no element matches. -/
theorem dropWhile_eq_self_of_forall {p : Char → Bool} {l : List Char}
    (h : ∀ c ∈ l, p c = false) : l.dropWhile p = l := by
  cases l with
  | nil => rfl
  | cons c cs => simp [List.dropWhile_cons, h c (by simp)]

/-- Helper: stripping does nothing when no element matches. -/
theorem stripWhile_eq_self {p : Char → Bool} {l : List Char}
    (h : ∀ c ∈ l, p c = false) : stripWhile p l = l := by
  unfold stripWhile
  rw [dropWhile_eq_self_of_forall h,
    dropWhile_eq_self_of_forall (fun c hc => h c (List.mem_reverse.mp hc)),
    List.reverse_reverse]

/-- Helper: stripping only removes characters. -/
theorem mem_of_mem_stripWhile {p : Char → Bool} {l : List Char} {c : Char}
    (hc : c ∈ stripWhile p l) : c ∈ l := by
  unfold stripWhile at hc
  rw [List.mem_reverse] at hc
  have h1 := (List.dropWhile_sublist (l := (l.dropWhile p).reverse) p).subset hc
  rw [List.mem_reverse] at h1
  exact (List.dropWhile_sublist p).subset h1

/-- Helper: dropping from the front twice is dropping once. -/
theorem dropWhile_idem (p : Char → Bool) (l : List Char) :
    (l.dropWhile p).dropWhile p = l.dropWhile p := by
  induction l with
  | nil => rfl
  | cons c cs ih =>
    rw [List.dropWhile_cons]
    split
    · exact ih
    · rename_i hpc
      rw [List.dropWhile_cons, if_neg hpc]

/-- Helper: removing matching elements from the back preserves a
non-matching head. -/
theorem frontClean_stripBack {p : Char → Bool} {l : List Char}
    (h : l.dropWhile p = l) :
    ((l.reverse.dropWhile p).reverse).dropWhile p =
      (l.reverse.dropWhile p).reverse := by
  have hsuf : l.reverse.dropWhile p <:+ l.reverse := List.dropWhile_suffix p
  have hpre : (l.reverse.dropWhile p).reverse <+: l := by
    have h2 := List.reverse_prefix.mpr hsuf
    rwa [List.reverse_reverse] at h2
  obtain ⟨t, ht⟩ := hpre
  cases hr : (l.reverse.dropWhile p).reverse with
  | nil => rfl
  | cons x rs =>
    have hl : l = x :: (rs ++ t) := by
      rw [← ht, hr]
      simp
    have hpx : p x = false := by
      by_contra hpx
      have hpx2 : p x = true := by simpa using hpx
      rw [hl, List.dropWhile_cons, if_pos hpx2] at h
      have hle := ((rs ++ t).dropWhile_sublist p).length_le
      have hlen := congrArg List.length h
      rw [List.length_cons] at hlen
      omega
    rw [List.dropWhile_cons, hpx]
    simp

/-- Helper: stripping both ends twice is stripping once. -/
theorem stripWhile_idem (p : Char → Bool) (l : List Char) :
    stripWhile p (stripWhile p l) = stripWhile p l := by
  have hFCr := frontClean_stripBack (dropWhile_idem p l)
  show stripWhile p ((((l.dropWhile p).reverse).dropWhile p).reverse) =
    (((l.dropWhile p).reverse).dropWhile p).reverse
  rw [stripWhile, hFCr, List.reverse_reverse, dropWhile_idem]

/-- Helper: Python strip is idempotent. -/
theorem pyStrip_idem (s : String) : pyStrip (pyStrip s) = pyStrip s :=
  congrArg String.mk (stripWhile_idem pyIsSpace s.data)

/-- Helper: stripping a character that does not occur is the identity. -/
theorem pyStripChar_eq_self (q : Char) (s : String) (h : q ∉ s.data) :
    pyStripChar q s = s := by
  unfold pyStripChar
  rw [stripWhile_eq_self]
  intro c hc
  simp only [decide_eq_false_iff_not]
  intro he
  exact h (he ▸ hc)

/-- Helper: the characters of a stripped string come from the string. -/
theorem mem_pyStrip {s : String} {c : Char} (hc : c ∈ (pyStrip s).data) :
    c ∈ s.data :=
  mem_of_mem_stripWhile hc

/-- Helper: a cell free of quote characters cleans idempotently. -/
theorem cleanCell_idem (c : Option String) (h : cellQuoteFree c = true) :
    cleanCell (cleanCell c) = cleanCell c := by
  cases c with
  | none => rfl
  | some s =>
    simp only [cellQuoteFree, Bool.and_eq_true, Bool.not_eq_true',
      List.contains] at h
    have h34 : Char.ofNat 34 ∉ s.data := fun hm => by
      rw [List.elem_iff.mpr hm] at h
      exact Bool.noConfusion h.1
    have h39 : Char.ofNat 39 ∉ s.data := fun hm => by
      rw [List.elem_iff.mpr hm] at h
      exact Bool.noConfusion h.2
    have hq : pyStripChar (Char.ofNat 39)
        (pyStripChar (Char.ofNat 34) (pyStrip s)) = pyStrip s := by
      rw [pyStripChar_eq_self _ _ (fun hm => h34 (mem_pyStrip hm)),
        pyStripChar_eq_self _ _ (fun hm => h39 (mem_pyStrip hm))]
    have h1 : cleanCell (some s) =
        if (pyStrip s = "" || pyStrip s = "nan" || pyStrip s = "NaN" ||
            pyStrip s = "None" || pyStrip s = nbsp) = true
        then none else some (pyStrip s) := by
      simp only [cleanCell, hq]
    rw [h1]
    split
    · rfl
    · rename_i hbad
      have hq2 : pyStripChar (Char.ofNat 39)
          (pyStripChar (Char.ofNat 34) (pyStrip (pyStrip s))) = pyStrip s := by
        rw [pyStrip_idem]
        exact hq
      simp only [cleanCell, hq2]
      rw [if_neg hbad]

/-- Claim C9 (amended): cleaning is idempotent on every table whose string
cells contain no double-quote and no apostrophe characters (quote stripping
can then expose nothing new); `C9_counterexample` shows idempotence fails in
general. -/
theorem C9_clean_idempotent_quote_free (rows : List (List (Option String)))
    (h : ∀ r ∈ rows, ∀ c ∈ r, cellQuoteFree c = true) :
    clean_dataframe (clean_dataframe rows) = clean_dataframe rows := by
  unfold clean_dataframe
  rw [List.map_map]
  apply List.map_congr_left
  intro r hr
  simp only [Function.comp]
  rw [List.map_map]
  apply List.map_congr_left
  intro c hc
  exact cleanCell_idem c (h r hr c hc)

/-- Witness for `C9_clean_idempotent_quote_free` on a small quote-free
table. -/
theorem C9_witness :
    clean_dataframe (clean_dataframe [[some "abc", none, some " nan "]]) =
      clean_dataframe [[some "abc", none, some " nan "]] :=
  C9_clean_idempotent_quote_free _ (by decide)


/-- Helper: searching a list zipped with its index range and projecting the
index is the indexed search, for any start offset. -/
theorem find?_zip_range_aux {α : Type} (f : α → Bool) :
    ∀ (l : List α) (n : Nat),
      ((l.zip (List.range' n l.length)).find?
        (fun q => f q.1)).map (fun q => q.2) = List.findIdx? f l n := by
  intro l
  induction l with
  | nil => intro n; rfl
  | cons x xs ih =>
    intro n
    rw [List.length_cons, List.range'_succ, List.zip_cons_cons,
      List.findIdx?_cons]
    by_cases hf : f x = true
    · simp [List.find?_cons, hf]
    · rw [List.find?_cons_of_neg, ih (n + 1), if_neg hf]
      simpa using hf

/-- Helper: the zero-offset instance of `find?_zip_range_aux`. -/
theorem find?_zip_range {α : Type} (f : α → Bool) (l : List α) :
    ((l.zip (List.range l.length)).find?
      (fun q => f q.1)).map (fun q => q.2) = l.findIdx? f := by
  rw [List.range_eq_range']
  exact find?_zip_range_aux f l 0

/-- Helper: the date-column search of the specification chain is the indexed
search of the source. -/
theorem spec_dateColumn_eq (t : Table) :
    spec_dateColumn t =
      t.cols.findIdx? (fun c => containsCL "date".data (lowerStr c).data) := by
  unfold spec_dateColumn
  exact find?_zip_range (fun c => containsCL "date".data (lowerStr c).data) t.cols

/-- Helper: the marker-row search of the specification chain is the indexed
search of the source. -/
theorem spec_markerRow_eq (m : String) (t : Table) (ci : Nat) :
    spec_markerRow m t ci =
      t.rows.findIdx? (fun r => isTotaleCell m (r.getD ci none)) := by
  unfold spec_markerRow
  exact find?_zip_range (fun r => isTotaleCell m (r.getD ci none)) t.rows

/-- Helper: the blank-row search of the specification chain is the indexed
search of the source. -/
theorem spec_blankRow_eq (t : Table) :
    spec_blankRow t =
      if 3 ≤ t.cols.length then t.rows.findIdx? blankFirst3 else none := by
  unfold spec_blankRow
  split
  · exact find?_zip_range blankFirst3 t.rows
  · rfl

/-- Claim C7 (amended): the source end-boundary search equals the
specification chain with the marker token corrected from `"total"` to
`"totale"`: marker row − 2 when a date-like column holds the marker, else
first blank-leading row − 1, else the last row; the function is total, so
computing the boundary never fails. -/
theorem C7_find_dataset_end_chain (t : Table) :
    find_dataset_end t = spec_find_dataset_end "totale" t := by
  unfold find_dataset_end spec_find_dataset_end
  rw [spec_dateColumn_eq, spec_blankRow_eq]
  cases hd : t.cols.findIdx?
      (fun c => containsCL "date".data (lowerStr c).data) with
  | none => rfl
  | some ci =>
    show (match t.rows.findIdx?
        (fun r => isTotaleCell "totale" (r.getD ci none)) with
      | some i => (i : Int) - 2
      | none =>
        match if 3 ≤ t.cols.length then t.rows.findIdx? blankFirst3
            else none with
          | some i => (i : Int) - 1
          | none => (t.rows.length : Int) - 1) =
      match (some ci).bind (spec_markerRow "totale" t) with
      | some i => (i : Int) - 2
      | none =>
        match if 3 ≤ t.cols.length then t.rows.findIdx? blankFirst3
            else none with
          | some i => (i : Int) - 1
          | none => (t.rows.length : Int) - 1
    rw [Option.some_bind, spec_markerRow_eq]

/-- Helper: the boolean subset test is list containment. -/
theorem isSubsetL_iff (xs ys : List String) :
    isSubsetL xs ys = true ↔ xs ⊆ ys := by
  simp [isSubsetL, List.all_eq_true, List.contains, List.elem_iff,
    List.subset_def]

/-- Helper: booleans equal when their truth is equivalent. -/
theorem bool_eq_of_iff {x y : Bool} (h : x = true ↔ y = true) : x = y := by
  cases x <;> cases y <;> simp_all

/-- Helper: the smaller token set has the same cardinality from either
side. -/
theorem smallerTokenSet_length_comm (a b : String) :
    (smallerTokenSet a b).length = (smallerTokenSet b a).length := by
  unfold smallerTokenSet
  split <;> split <;> omega

/-- Helper: exact characterization of `same_person`: true on non-empty
arguments when the canonical keys agree, or the smaller token set has at
least two elements and one token set contains the other, or the ratio of the
sorted joined token sets reaches 0.9. -/
theorem same_person_eq_true_iff (a b : String) :
    same_person a b = true ↔
      (a ≠ "" ∧ b ≠ "" ∧
        (canonical_name a = canonical_name b ∨
          (2 ≤ (smallerTokenSet a b).length ∧
            (tokenSet a ⊆ tokenSet b ∨ tokenSet b ⊆ tokenSet a)) ∨
          mkRat 9 10 ≤ ratio (sortedJoin (tokenSet a)) (sortedJoin (tokenSet b)))) := by
  simp only [same_person, smallerTokenSet]
  by_cases h0 : a = "" ∨ b = ""
  · have hc : (a = "" || b = "") = true := by
      rcases h0 with h | h <;> simp [h]
    rw [if_pos hc]
    constructor
    · intro hF
      exact absurd hF (by simp)
    · rintro ⟨ha, hb, _⟩
      rcases h0 with h | h
      · exact absurd h ha
      · exact absurd h hb
  · rw [not_or] at h0
    obtain ⟨ha, hb⟩ := h0
    rw [if_neg (by simp [ha, hb])]
    by_cases hcan : canonical_name a = canonical_name b
    · rw [if_pos hcan]
      simp [ha, hb, hcan]
    · rw [if_neg hcan]
      by_cases hsub : (decide (2 ≤ (if (tokenSet a).length ≤ (tokenSet b).length
            then tokenSet a else tokenSet b).length) &&
          (isSubsetL (tokenSet a) (tokenSet b) ||
            isSubsetL (tokenSet b) (tokenSet a))) = true
      · rw [if_pos hsub]
        simp only [Bool.and_eq_true, Bool.or_eq_true, decide_eq_true_eq,
          isSubsetL_iff] at hsub
        simp [ha, hb, hsub]
      · rw [if_neg hsub]
        simp only [Bool.and_eq_true, Bool.or_eq_true, decide_eq_true_eq,
          isSubsetL_iff, not_and_or, not_or] at hsub
        constructor
        · intro hr
          exact ⟨ha, hb, Or.inr (Or.inr (of_decide_eq_true hr))⟩
        · rintro ⟨_, _, h | h | h⟩
          · exact absurd h hcan
          · rcases hsub with hs | hs
            · exact absurd h.1 hs
            · rcases h.2 with h2 | h2
              · exact absurd h2 hs.1
              · exact absurd h2 hs.2
          · exact decide_eq_true h

/-- Claim C1 (amended): the characterization of `same_person` with the
subset tier as the source has it — the smaller token set must have at least
two elements (not: its shortest token at least two characters, which
`C1_counterexample` refutes) — and false on an empty argument. -/
theorem C1_same_person_characterization (a b : String) :
    same_person a b = true ↔
      (a ≠ "" ∧ b ≠ "" ∧
        (canonical_name a = canonical_name b ∨
          (2 ≤ (smallerTokenSet a b).length ∧
            (tokenSet a ⊆ tokenSet b ∨ tokenSet b ⊆ tokenSet a)) ∨
          mkRat 9 10 ≤ ratio (sortedJoin (tokenSet a)) (sortedJoin (tokenSet b)))) :=
  same_person_eq_true_iff a b

/-- Claim C10 (amended): `same_person` is symmetric on every pair that is
settled before the similarity-ratio tier: an empty argument, equal canonical
keys, or the subset tier.  (The ratio tier itself can break symmetry, see
`C10_counterexample`.) -/
theorem C10_symmetry_before_ratio (a b : String)
    (h : a = "" ∨ b = "" ∨ canonical_name a = canonical_name b ∨
        (2 ≤ (smallerTokenSet a b).length ∧
          (tokenSet a ⊆ tokenSet b ∨ tokenSet b ⊆ tokenSet a))) :
    same_person a b = same_person b a := by
  apply bool_eq_of_iff
  rw [same_person_eq_true_iff, same_person_eq_true_iff]
  rcases h with h | h | h | h
  · simp [h]
  · simp [h]
  · constructor
    · rintro ⟨h1, h2, _⟩
      exact ⟨h2, h1, Or.inl h.symm⟩
    · rintro ⟨h1, h2, _⟩
      exact ⟨h2, h1, Or.inl h⟩
  · have h2 : 2 ≤ (smallerTokenSet b a).length ∧
        (tokenSet b ⊆ tokenSet a ∨ tokenSet a ⊆ tokenSet b) :=
      ⟨by rw [← smallerTokenSet_length_comm]; exact h.1, h.2.symm⟩
    constructor
    · rintro ⟨h1, hb1, _⟩
      exact ⟨hb1, h1, Or.inr (Or.inl h2)⟩
    · rintro ⟨h1, hb1, _⟩
      exact ⟨hb1, h1, Or.inr (Or.inl h)⟩

/-- Witness for `C10_symmetry_before_ratio`: a pair settled at the
canonical-key tier. -/
theorem C10_witness :
    same_person "John Smith" "john smith." =
      same_person "john smith." "John Smith" :=
  C10_symmetry_before_ratio _ _ (Or.inr (Or.inr (Or.inl (by decide))))

end TestAnalyzer


